import Mathlib

/-!
Shallow embedding of `src/app.py` (WeatherDataAnalyzer) and verification of
the spec's claims about it.

Conventions:
* numpy float arrays are modelled as `List ℝ` (or `List ℚ` where every claim
  about them is decidable and the code's arithmetic is exact);
* numpy operations that produce non-finite values (division by a zero standard
  deviation) or raise (percentile of an empty array) are modelled with
  `Option`, `none` standing for the non-finite/raising outcome;
* the random sources consumed by the generator are explicit parameters
  (one draw function per `np.random` call site).
-/

/-! ### Run-length detector, `find_consecutive_events` (src/app.py lines 186-193)

`changes = np.diff(np.concatenate(([False], boolean_array, [False])).astype(int))`
`starts = np.where(changes == 1)[0]`, `ends = np.where(changes == -1)[0]`,
`lengths = ends - starts`, return `np.sum(lengths >= min_length)`. -/

/-- `.astype(int)` on a boolean. -/
def boolToInt (b : Bool) : ℤ := if b then 1 else 0

/-- `np.diff`: first difference of a 1-d array. -/
def diff1 : List ℤ → List ℤ
  | a :: b :: t => (b - a) :: diff1 (b :: t)
  | _ => []

/-- `np.where(arr == v)[0]`: the ascending list of indices whose entry is `v`. -/
def whereEq (v : ℤ) : List ℤ → List ℕ
  | [] => []
  | a :: t => if a = v then 0 :: (whereEq v t).map (· + 1) else (whereEq v t).map (· + 1)

/-- The `changes` array of `find_consecutive_events`. -/
def changes (mask : List Bool) : List ℤ :=
  diff1 (((false :: mask) ++ [false]).map boolToInt)

/-- `starts = np.where(changes == 1)[0]`. -/
def runStarts (mask : List Bool) : List ℕ := whereEq 1 (changes mask)

/-- `ends = np.where(changes == -1)[0]`. -/
def runEnds (mask : List Bool) : List ℕ := whereEq (-1) (changes mask)

/-- `lengths = ends - starts` (elementwise integer subtraction). -/
def runLengthsDiff (mask : List Bool) : List ℤ :=
  List.zipWith (fun (e s : ℕ) => (e : ℤ) - (s : ℤ)) (runEnds mask) (runStarts mask)

/-- `find_consecutive_events`: `np.sum(lengths >= min_length)`. -/
def find_consecutive_events (mask : List Bool) (minLength : ℕ) : ℕ :=
  ((runLengthsDiff mask).filter (fun l => decide ((minLength : ℤ) ≤ l))).length

/-! ### Sequential dry-spell accumulation (src/app.py lines 237-250)

`current_spell` counter incremented on `True`, emitted and reset on `False`,
trailing counter emitted after the loop. -/

/-- The body of the dry-spell loop, carrying the `current_spell` counter. -/
def drySpellGo (c : ℕ) : List Bool → List ℕ
  | [] => if 0 < c then [c] else []
  | day :: rest =>
      if day then drySpellGo (c + 1) rest
      else (if 0 < c then [c] else []) ++ drySpellGo 0 rest

/-- `dry_spell_lengths` as accumulated by the sequential loop (counter starts at 0). -/
def seqRunLengths (mask : List Bool) : List ℕ := drySpellGo 0 mask

/-! ### Equivalence of the two run detectors (claim C1) -/

/-- Proof-side recursion for `changes`: the first difference of the padded
0/1 sequence, expressed with the previous boolean carried along. -/
def chg (prev : Bool) : List Bool → List ℤ
  | [] => [-boolToInt prev]
  | a :: t => (boolToInt a - boolToInt prev) :: chg a t

lemma diff1_map_pad (prev : Bool) (l : List Bool) :
    diff1 ((prev :: (l ++ [false])).map boolToInt) = chg prev l := by
  induction l generalizing prev with
  | nil => simp [diff1, chg, boolToInt]
  | cons a t ih => simpa [diff1, chg] using ih a

lemma changes_eq_chg (mask : List Bool) : changes mask = chg false mask := by
  simpa [changes] using diff1_map_pad false mask

lemma chg_tt (t : List Bool) : chg true (true :: t) = 0 :: chg true t := by
  simp [chg, boolToInt]

lemma chg_ft (t : List Bool) : chg false (true :: t) = 1 :: chg true t := by
  simp [chg, boolToInt]

lemma chg_tf (t : List Bool) : chg true (false :: t) = -1 :: chg false t := by
  simp [chg, boolToInt]

lemma chg_ff (t : List Bool) : chg false (false :: t) = 0 :: chg false t := by
  simp [chg, boolToInt]

lemma whereEq_cons_of_eq (v a : ℤ) (t : List ℤ) (h : a = v) :
    whereEq v (a :: t) = 0 :: (whereEq v t).map (· + 1) := by
  simp [whereEq, h]

lemma whereEq_cons_of_ne (v a : ℤ) (t : List ℤ) (h : a ≠ v) :
    whereEq v (a :: t) = (whereEq v t).map (· + 1) := by
  simp [whereEq, h]

/-- Ends (as integers) of the runs described by `chg prev l`. -/
def epZ (prev : Bool) (l : List Bool) : List ℤ :=
  (whereEq (-1) (chg prev l)).map (fun n : ℕ => (n : ℤ))

/-- Starts (as integers) of the runs described by `chg prev l`. -/
def spZ (prev : Bool) (l : List Bool) : List ℤ :=
  (whereEq 1 (chg prev l)).map (fun n : ℕ => (n : ℤ))

lemma cast_map_succ (w : List ℕ) :
    (w.map (· + 1)).map (fun n : ℕ => (n : ℤ)) =
      (w.map (fun n : ℕ => (n : ℤ))).map (· + 1) := by
  induction w with
  | nil => rfl
  | cons a t ih =>
      simp only [List.map_cons, ih, List.cons.injEq, and_true]
      push_cast
      ring

lemma epZ_true_true (t : List Bool) : epZ true (true :: t) = (epZ true t).map (· + 1) := by
  rw [epZ, chg_tt, whereEq_cons_of_ne _ _ _ (by norm_num), cast_map_succ, epZ]

lemma spZ_true_true (t : List Bool) : spZ true (true :: t) = (spZ true t).map (· + 1) := by
  rw [spZ, chg_tt, whereEq_cons_of_ne _ _ _ (by norm_num), cast_map_succ, spZ]

lemma epZ_false_true (t : List Bool) : epZ false (true :: t) = (epZ true t).map (· + 1) := by
  rw [epZ, chg_ft, whereEq_cons_of_ne _ _ _ (by norm_num), cast_map_succ, epZ]

lemma spZ_false_true (t : List Bool) :
    spZ false (true :: t) = (0 : ℤ) :: (spZ true t).map (· + 1) := by
  rw [spZ, chg_ft, whereEq_cons_of_eq _ _ _ rfl, List.map_cons, cast_map_succ, spZ]
  norm_num

lemma epZ_true_false (t : List Bool) :
    epZ true (false :: t) = (0 : ℤ) :: (epZ false t).map (· + 1) := by
  rw [epZ, chg_tf, whereEq_cons_of_eq _ _ _ rfl, List.map_cons, cast_map_succ, epZ]
  norm_num

lemma spZ_true_false (t : List Bool) : spZ true (false :: t) = (spZ false t).map (· + 1) := by
  rw [spZ, chg_tf, whereEq_cons_of_ne _ _ _ (by norm_num), cast_map_succ, spZ]

lemma epZ_false_false (t : List Bool) : epZ false (false :: t) = (epZ false t).map (· + 1) := by
  rw [epZ, chg_ff, whereEq_cons_of_ne _ _ _ (by norm_num), cast_map_succ, epZ]

lemma spZ_false_false (t : List Bool) : spZ false (false :: t) = (spZ false t).map (· + 1) := by
  rw [spZ, chg_ff, whereEq_cons_of_ne _ _ _ (by norm_num), cast_map_succ, spZ]

lemma zipSub_shift (es ss : List ℤ) :
    List.zipWith (· - ·) (es.map (· + 1)) (ss.map (· + 1)) = List.zipWith (· - ·) es ss := by
  induction es generalizing ss with
  | nil => simp
  | cons e es ih =>
      cases ss with
      | nil => simp
      | cons s ss =>
          simp only [List.map_cons, List.zipWith_cons_cons, ih, List.cons.injEq, and_true]
          ring

lemma zipSub_shift_cons (es ss : List ℤ) (c : ℤ) :
    List.zipWith (· - ·) (es.map (· + 1)) (c :: ss.map (· + 1)) =
      List.zipWith (· - ·) es ((c - 1) :: ss) := by
  cases es with
  | nil => simp
  | cons e es =>
      simp only [List.map_cons, List.zipWith_cons_cons, zipSub_shift, List.cons.injEq, and_true]
      ring

lemma runs_spec (l : List Bool) :
    (∀ c : ℕ, 1 ≤ c →
      List.zipWith (· - ·) (epZ true l) ((-(c : ℤ)) :: spZ true l) =
        (drySpellGo c l).map (fun n : ℕ => (n : ℤ))) ∧
    List.zipWith (· - ·) (epZ false l) (spZ false l) =
      (drySpellGo 0 l).map (fun n : ℕ => (n : ℤ)) := by
  induction l with
  | nil =>
      constructor
      · intro c hc
        have h0 : 0 < c := hc
        simp [epZ, spZ, chg, whereEq, boolToInt, drySpellGo, h0]
      · simp [epZ, spZ, chg, whereEq, boolToInt, drySpellGo]
  | cons a t ih =>
      rcases ih with ⟨ihT, ihF⟩
      cases a with
      | true =>
          constructor
          · intro c hc
            rw [epZ_true_true, spZ_true_true, zipSub_shift_cons]
            have hcast : (-(c : ℤ) - 1) = (-((c + 1 : ℕ) : ℤ)) := by push_cast; ring
            rw [hcast, ihT (c + 1) (by omega)]
            simp [drySpellGo]
          · rw [epZ_false_true, spZ_false_true, zipSub_shift_cons]
            have hcast : ((0 : ℤ) - 1) = -((1 : ℕ) : ℤ) := by norm_num
            rw [hcast, ihT 1 (by omega)]
            simp [drySpellGo]
      | false =>
          constructor
          · intro c hc
            rw [epZ_true_false, spZ_true_false]
            have hz : List.zipWith (· - ·) ((0 : ℤ) :: (epZ false t).map (· + 1))
                  ((-(c : ℤ)) :: (spZ false t).map (· + 1))
                = ((0 : ℤ) - (-(c : ℤ))) :: List.zipWith (· - ·) (epZ false t) (spZ false t) := by
              simp [zipSub_shift]
            rw [hz, ihF]
            have h0 : 0 < c := hc
            simp [drySpellGo, h0]
          · rw [epZ_false_false, spZ_false_false, zipSub_shift, ihF]
            simp [drySpellGo]

/-- C1: the vectorized edge-detection run detector (pad with false, cast to
0/1, first difference, starts where the difference is +1, exclusive ends where
it is -1, length = end - start) and the sequential dry-spell accumulation
(increment on true, emit and reset on false, emit the trailing counter)
produce the identical list of maximal true-run lengths, in the same order,
for every boolean mask. -/
theorem runDetector_eq_sequential (mask : List Bool) :
    runLengthsDiff mask = (seqRunLengths mask).map (fun n : ℕ => (n : ℤ)) := by
  have key := (runs_spec mask).2
  rw [epZ, spZ, ← changes_eq_chg] at key
  rw [runLengthsDiff, seqRunLengths, runEnds, runStarts, ← key, List.zipWith_map]

/-- C7: on the boolean input [T,T,F,T,T,T,F,T] the run-length detector finds
the maximal true-run lengths [2,3,1], and with minimum run length 3 the count
returned by find_consecutive_events is 1. -/
theorem runDetector_example :
    runLengthsDiff [true, true, false, true, true, true, false, true] = [2, 3, 1] ∧
    find_consecutive_events [true, true, false, true, true, true, false, true] 3 = 1 := by
  decide

/-! ### AR(1) noise coupling (generate_weather_data, src/app.py lines 27-31)

`daily_variation = np.random.normal(0, 5, self.days)` followed by the in-place
loop `for i in range(1, self.days): daily_variation[i] += 0.3 * daily_variation[i-1]`.
The float literal 0.3 is modelled as the exact real 3/10. -/

/-- One iteration of the in-place loop: `daily_variation[i] += 0.3 * daily_variation[i-1]`. -/
noncomputable def arStep (dv : List ℝ) (i : ℕ) : List ℝ :=
  dv.set i (dv.getD i 0 + 3 / 10 * dv.getD (i - 1) 0)

/-- The in-place loop `for i in range(1, self.days)` over the noise array. -/
noncomputable def arLoop (noise : List ℝ) : List ℝ :=
  (List.range' 1 (noise.length - 1)).foldl arStep noise

/-- Helper for the prefix scan: emits the running AR(1) value carried in `prev`. -/
noncomputable def arGo : ℝ → List ℝ → List ℝ
  | _, [] => []
  | prev, x :: t => (x + 3 / 10 * prev) :: arGo (x + 3 / 10 * prev) t

/-- The AR(1) recurrence as a prefix scan (fold with carried state):
`v 0 = noise 0`, `v i = noise i + 0.3 * v (i-1)`. -/
noncomputable def arScan : List ℝ → List ℝ
  | [] => []
  | x :: t => x :: arGo x t

lemma arGo_length (prev : ℝ) (l : List ℝ) : (arGo prev l).length = l.length := by
  induction l generalizing prev with
  | nil => rfl
  | cons x t ih => simp [arGo, ih]

lemma arScan_length (l : List ℝ) : (arScan l).length = l.length := by
  cases l with
  | nil => rfl
  | cons x t => simp [arScan, arGo_length]

lemma getD_last (A : List ℝ) (h : A ≠ []) : A.getD (A.length - 1) 0 = A.getLastD 0 := by
  induction A with
  | nil => exact absurd rfl h
  | cons a t ih =>
      cases t with
      | nil => rfl
      | cons b t2 =>
          have hne : (b :: t2) ≠ [] := List.cons_ne_nil b t2
          have : (a :: b :: t2).length - 1 = (b :: t2).length - 1 + 1 := by
            simp
          rw [this, List.getD_cons_succ, ih hne, List.getLastD_cons]
          exact (List.getLastD_cons a b t2).symm

lemma arGo_append (prev : ℝ) (l : List ℝ) (x : ℝ) :
    arGo prev (l ++ [x]) = arGo prev l ++ [x + 3 / 10 * (arGo prev l).getLastD prev] := by
  induction l generalizing prev with
  | nil => rfl
  | cons y t ih =>
      simp only [List.cons_append, arGo, List.append_eq]
      rw [ih, List.getLastD_cons]

lemma arScan_append (l : List ℝ) (x : ℝ) (h : l ≠ []) :
    arScan (l ++ [x]) = arScan l ++ [x + 3 / 10 * (arScan l).getLastD 0] := by
  cases l with
  | nil => exact absurd rfl h
  | cons y t =>
      simp only [List.cons_append, arScan]
      rw [arGo_append, List.getLastD_cons]

lemma arLoop_inv (noise : List ℝ) : ∀ m : ℕ, m + 1 ≤ noise.length →
    (List.range' 1 m).foldl arStep noise =
      arScan (noise.take (m + 1)) ++ noise.drop (m + 1) := by
  intro m
  induction m with
  | zero =>
      intro h1
      cases noise with
      | nil => simp at h1
      | cons x t => simp [arScan, arGo]
  | succ m ih =>
      intro h2
      have h1 : m + 1 ≤ noise.length := by omega
      have hrange : List.range' 1 (m + 1) = List.range' 1 m ++ [m + 1] := by
        rw [List.range'_concat]
        simp [Nat.add_comm]
      rw [hrange, List.foldl_append, ih h1]
      have hmlt : m + 1 < noise.length := h2
      have hAlen : (arScan (noise.take (m + 1))).length = m + 1 := by
        rw [arScan_length, List.length_take]
        omega
      have hAne : arScan (noise.take (m + 1)) ≠ [] := by
        intro hnil
        rw [hnil] at hAlen
        simp at hAlen
      have hdrop : noise.drop (m + 1) = noise[m + 1] :: noise.drop (m + 2) :=
        List.drop_eq_getElem_cons hmlt
      rw [hdrop]
      rw [List.foldl_cons, List.foldl_nil]
      set A := arScan (noise.take (m + 1)) with hA
      set R := noise.drop (m + 2) with hR
      have hstep : arStep (A ++ noise[m + 1] :: R) (m + 1) =
          A ++ (noise[m + 1] + 3 / 10 * A.getLastD 0) :: R := by
        rw [arStep]
        have hset : (A ++ noise[m + 1] :: R).set (m + 1)
            ((A ++ noise[m + 1] :: R).getD (m + 1) 0 +
              3 / 10 * (A ++ noise[m + 1] :: R).getD (m + 1 - 1) 0) =
            A ++ ((A ++ noise[m + 1] :: R).getD (m + 1) 0 +
              3 / 10 * (A ++ noise[m + 1] :: R).getD (m + 1 - 1) 0) :: R := by
          rw [List.set_append_right _ _ (by omega)]
          congr 1
          have : m + 1 - A.length = 0 := by omega
          rw [this]
          rfl
        rw [hset]
        have hg1 : (A ++ noise[m + 1] :: R).getD (m + 1) 0 = noise[m + 1] := by
          rw [List.getD_append_right _ _ _ _ (by omega)]
          have : m + 1 - A.length = 0 := by omega
          rw [this]
          rfl
        have hg2 : (A ++ noise[m + 1] :: R).getD (m + 1 - 1) 0 = A.getLastD 0 := by
          have hm : m + 1 - 1 = m := by omega
          rw [hm, List.getD_append _ _ _ _ (by omega)]
          have : m = A.length - 1 := by omega
          rw [this]
          exact getD_last A hAne
        rw [hg1, hg2]
      rw [hstep]
      have htake : noise.take (m + 2) = noise.take (m + 1) ++ [noise[m + 1]] := by
        rw [List.take_succ, List.getElem?_eq_getElem hmlt]
        rfl
      have hAv : A ++ [noise[m + 1] + 3 / 10 * A.getLastD 0] = arScan (noise.take (m + 2)) := by
        rw [htake, arScan_append _ _ (by
          intro hnil
          have hlen2 := congrArg List.length hnil
          rw [List.length_take] at hlen2
          simp only [List.length_nil] at hlen2
          omega)]
      rw [← hAv]
      simp

lemma arGo_getD (l : List ℝ) : ∀ (prev : ℝ) (i : ℕ), i < l.length →
    (arGo prev l).getD i 0 = l.getD i 0 + 3 / 10 * (prev :: arGo prev l).getD i 0 := by
  induction l with
  | nil => intro prev i h; simp at h
  | cons y t ih =>
      intro prev i h
      cases i with
      | zero => simp [arGo]
      | succ j =>
          have hj : j < t.length := by simpa using h
          simp only [arGo, List.getD_cons_succ]
          exact ih (y + 3 / 10 * prev) j hj

/-- C6: the in-place sequential loop over the noise array computes exactly the
AR(1) recurrence — it equals the prefix scan with carried state and multiplier
0.3, and consequently `variation[0] = noise[0]` and
`variation[i] = noise[i] + 0.3 * variation[i-1]` for every `i > 0`. -/
theorem ar_loop_eq_scan (noise : List ℝ) :
    arLoop noise = arScan noise ∧
    (arLoop noise).getD 0 0 = noise.getD 0 0 ∧
    (∀ i : ℕ, i + 1 < noise.length →
      (arLoop noise).getD (i + 1) 0 =
        noise.getD (i + 1) 0 + 3 / 10 * (arLoop noise).getD i 0) := by
  have hmain : arLoop noise = arScan noise := by
    cases noise with
    | nil => rfl
    | cons x t =>
        have h := arLoop_inv (x :: t) t.length (by simp)
        rw [arLoop]
        have hl : (x :: t).length - 1 = t.length := by simp
        rw [hl, h]
        have hlen : (x :: t).length = t.length + 1 := by simp
        rw [← hlen, List.take_length, List.drop_length]
        simp
  refine ⟨hmain, ?_, ?_⟩
  · rw [hmain]
    cases noise with
    | nil => rfl
    | cons x t => simp [arScan]
  · intro i hi
    rw [hmain]
    cases noise with
    | nil => simp at hi
    | cons x t =>
        have hit : i < t.length := by simpa using hi
        simp only [arScan, List.getD_cons_succ]
        exact arGo_getD t x i hit

/-! ### Moving averages (moving_averages, src/app.py lines 195-210)

`np.convolve(self.temperature, np.ones(w)/w, mode='valid')`. numpy's
`convolve` treats its two arguments symmetrically: in valid mode the output
has length `max(M, N) - min(M, N) + 1` where `M`, `N` are the input lengths
(both inputs must be nonempty). -/

/-- Valid-mode convolution with `a` the longer input: entry `k` is
`sum_j a[k+j] * v[L-1-j]` (the kernel is flipped). -/
noncomputable def convolveValidOriented (a v : List ℝ) : List ℝ :=
  (List.range (a.length - v.length + 1)).map
    (fun k => (List.zipWith (· * ·) ((a.drop k).take v.length) v.reverse).sum)

/-- `np.convolve(a, v, mode='valid')`: numpy swaps the arguments so the
longer one is slid over. -/
noncomputable def np_convolve_valid (a v : List ℝ) : List ℝ :=
  if v.length ≤ a.length then convolveValidOriented a v else convolveValidOriented v a

/-- `np.convolve(xs, np.ones(w)/w, mode='valid')` as used for the 7- and
30-day moving averages. -/
noncomputable def moving_average (xs : List ℝ) (w : ℕ) : List ℝ :=
  np_convolve_valid xs (List.replicate w ((1 : ℝ) / w))

/-- C2 counterexample: for window w = 7 and a series of length N = 3 < w the
smoothed output is not empty — it has length w - N + 1 = 5, because
np.convolve's valid mode treats its arguments symmetrically. The claim's
"if w > N the smoothed output is empty" is false on the code. -/
theorem movingAverage_overlong_window_not_empty :
    ([(1 : ℝ), 2, 3].length < 7) ∧ moving_average [(1 : ℝ), 2, 3] 7 ≠ [] ∧
    (moving_average [(1 : ℝ), 2, 3] 7).length = 5 := by
  have hlen : (moving_average [(1 : ℝ), 2, 3] 7).length = 5 := by
    simp [moving_average, np_convolve_valid, convolveValidOriented]
  refine ⟨by norm_num, ?_, hlen⟩
  intro h
  rw [h] at hlen
  simp at hlen

/-- C2 (amended): for a nonempty series of length N and window size w ≥ 1,
the smoothed output has length N - w + 1 when w ≤ N, and length w - N + 1
(not empty) when w > N; no error is raised in either case. -/
theorem movingAverage_length_law (xs : List ℝ) (w : ℕ) (_hx : 1 ≤ xs.length)
    (_hw : 1 ≤ w) :
    (moving_average xs w).length =
      if w ≤ xs.length then xs.length - w + 1 else w - xs.length + 1 := by
  rw [moving_average, np_convolve_valid, List.length_replicate]
  by_cases h : w ≤ xs.length
  · rw [if_pos h, if_pos h]
    simp [convolveValidOriented]
  · rw [if_neg h, if_neg h]
    simp [convolveValidOriented]

/-- Witness for C2's amended law at N = 3, w = 2. -/
theorem movingAverage_length_law_witness :
    1 ≤ [(1 : ℝ), 2, 3].length ∧ 1 ≤ 2 ∧
    (moving_average [(1 : ℝ), 2, 3] 2).length =
      if 2 ≤ [(1 : ℝ), 2, 3].length then [(1 : ℝ), 2, 3].length - 2 + 1
      else 2 - [(1 : ℝ), 2, 3].length + 1 :=
  ⟨by norm_num, by norm_num, movingAverage_length_law [(1 : ℝ), 2, 3] 2 (by norm_num) (by norm_num)⟩

/-! ### Linear trend (moving_averages, src/app.py lines 212-220)

`slope, intercept = np.polyfit(days_array, self.temperature, 1)`;
`trend_direction = "warming" if slope > 0 else "cooling"`.
`np.polyfit` at degree 1 is modelled by the closed-form ordinary
least-squares slope over the day indices 0..N-1. -/

/-- The ordinary-least-squares slope of `ys` against the day index, the
degree-1 solution computed by `np.polyfit(np.arange(len(ys)), ys, 1)`. -/
noncomputable def olsSlope (ys : List ℝ) : ℝ :=
  let n := ys.length
  let xs : List ℝ := (List.range n).map (fun i : ℕ => (i : ℝ))
  let xbar := xs.sum / n
  let ybar := ys.sum / n
  (List.zipWith (fun x y => (x - xbar) * (y - ybar)) xs ys).sum /
    (xs.map (fun x => (x - xbar) ^ 2)).sum

/-- `trend_direction = "warming" if slope > 0 else "cooling"`. -/
noncomputable def trendDirection (ys : List ℝ) : String :=
  if 0 < olsSlope ys then "warming" else "cooling"

/-- C9: the trend label is "warming" iff the least-squares slope is strictly
positive, and "cooling" otherwise; in particular a slope of exactly 0 is
labeled "cooling". -/
theorem trend_direction_label (ys : List ℝ) :
    (trendDirection ys = "warming" ↔ 0 < olsSlope ys) ∧
    (olsSlope ys = 0 → trendDirection ys = "cooling") := by
  by_cases h : 0 < olsSlope ys
  · rw [trendDirection, if_pos h]
    refine ⟨⟨fun _ => h, fun _ => rfl⟩, fun h0 => ?_⟩
    rw [h0] at h
    exact absurd h (lt_irrefl 0)
  · rw [trendDirection, if_neg h]
    exact ⟨⟨fun hw => absurd hw (by decide), fun hs => absurd hs h⟩, fun _ => rfl⟩

/-- Witness for C9 on the constant series [1, 1], whose slope is exactly 0:
the label is "cooling". -/
theorem trend_direction_label_witness :
    (trendDirection [(1 : ℝ), 1] = "warming" ↔ 0 < olsSlope [(1 : ℝ), 1]) ∧
    trendDirection [(1 : ℝ), 1] = "cooling" := by
  have h0 : olsSlope [(1 : ℝ), 1] = 0 := by
    rw [olsSlope]
    norm_num [List.range_succ]
  exact ⟨(trend_direction_label [(1 : ℝ), 1]).1, (trend_direction_label [(1 : ℝ), 1]).2 h0⟩

/-! ### The synthetic weather generator (generate_weather_data, src/app.py lines 18-53)

Every `np.random` call site is modelled as an explicit draw function
(one value per day index); float literals are exact reals. -/

/-- The random sources consumed by `generate_weather_data`:
`np.random.normal(0,5)` for temperature, `np.random.normal(0,10)` for
humidity, `np.random.random()` for rain events, `np.random.exponential(5)`
for rain amounts, `np.random.normal(0,3)` for wind, `np.random.normal(0,8)`
for pressure. -/
structure Draws where
  tempNoise : ℕ → ℝ
  humNoise : ℕ → ℝ
  rainU : ℕ → ℝ
  expDraw : ℕ → ℝ
  windNoise : ℕ → ℝ
  pressNoise : ℕ → ℝ

/-- `datetime(2021, 1, 1).toordinal()`: the fixed start date as a proleptic
Gregorian ordinal day number. -/
def startOrdinal : ℕ := 737791

/-- `self.dates = np.array([start_date + timedelta(days=i) for i in range(self.days)])`,
each date represented by its ordinal day number. -/
def dates (N : ℕ) : List ℕ := (List.range N).map (fun i => startOrdinal + i)

/-- Gregorian leap-year rule. -/
def isLeap (y : ℕ) : Bool := (y % 4 == 0 && y % 100 != 0) || y % 400 == 0

/-- Number of days in year `y`. -/
def yearLength (y : ℕ) : ℕ := if isLeap y then 366 else 365

/-- Day-of-year of the date `i` days after January 1st of year `y`. -/
def doyAux (y i : ℕ) : ℕ :=
  if i < yearLength y then i + 1 else doyAux (y + 1) (i - yearLength y)
termination_by i
decreasing_by
  rename_i h
  have h365 : 365 ≤ yearLength y := by
    rw [yearLength]
    split <;> omega
  omega

/-- `date.timetuple().tm_yday` for the date `i` days after 2021-01-01. -/
def dayOfYear (i : ℕ) : ℕ := doyAux 2021 i

/-- `np.clip(x, lo, hi)`: saturate at both bounds. -/
noncomputable def clip (x lo hi : ℝ) : ℝ := min (max x lo) hi

/-- `seasonal_temp = 20 + 15 * np.sin(2 * np.pi * day_of_year / 365.25 - np.pi/2)`. -/
noncomputable def seasonalTemp (N : ℕ) : List ℝ :=
  (List.range N).map (fun i =>
    20 + 15 * Real.sin (2 * Real.pi * (dayOfYear i : ℝ) / 365.25 - Real.pi / 2))

/-- `daily_variation` after the AR(1) in-place loop. -/
noncomputable def dailyVariation (N : ℕ) (d : Draws) : List ℝ :=
  arLoop ((List.range N).map d.tempNoise)

/-- `self.temperature = seasonal_temp + daily_variation`. -/
noncomputable def temperature (N : ℕ) (d : Draws) : List ℝ :=
  List.zipWith (· + ·) (seasonalTemp N) (dailyVariation N d)

/-- `self.humidity = np.clip(70 - 0.5*(self.temperature - 20) + humidity_noise, 10, 100)`. -/
noncomputable def humidity (N : ℕ) (d : Draws) : List ℝ :=
  List.zipWith (fun t n => clip (70 - 0.5 * (t - 20) + n) 10 100)
    (temperature N d) ((List.range N).map d.humNoise)

/-- `precip_probability = np.clip((self.humidity - 30) / 70, 0, 1)`. -/
noncomputable def precipProbability (N : ℕ) (d : Draws) : List ℝ :=
  (humidity N d).map (fun h => clip ((h - 30) / 70) 0 1)

/-- `rain_events = np.random.random(self.days) < (precip_probability * 0.3)`. -/
noncomputable def rainEvents (N : ℕ) (d : Draws) : List Bool :=
  List.zipWith (fun u p => if u < p * 0.3 then true else false)
    ((List.range N).map d.rainU) (precipProbability N d)

/-- `self.precipitation = np.where(rain_events, np.random.exponential(5, self.days), 0)`. -/
noncomputable def precipitation (N : ℕ) (d : Draws) : List ℝ :=
  List.zipWith (fun b e => if b then e else 0)
    (rainEvents N d) ((List.range N).map d.expDraw)

/-- `self.wind_speed = np.clip(8 + 0.3*self.precipitation + np.random.normal(0,3), 0, 50)`. -/
noncomputable def windSpeed (N : ℕ) (d : Draws) : List ℝ :=
  List.zipWith (fun p n => clip (8 + 0.3 * p + n) 0 50)
    (precipitation N d) ((List.range N).map d.windNoise)

/-- `self.pressure = 1013 + 10*np.sin(...) + pressure_variation - 5*(self.precipitation > 0)`. -/
noncomputable def pressure (N : ℕ) (d : Draws) : List ℝ :=
  List.zipWith (fun pn pr => pn + (-5) * (if 0 < pr then (1 : ℝ) else 0))
    (List.zipWith (· + ·)
      ((List.range N).map
        (fun i => 1013 + 10 * Real.sin (2 * Real.pi * (dayOfYear i : ℝ) / 365.25)))
      ((List.range N).map d.pressNoise))
    (precipitation N d)

lemma foldl_arStep_length (idxs : List ℕ) (dv : List ℝ) :
    (idxs.foldl arStep dv).length = dv.length := by
  induction idxs generalizing dv with
  | nil => rfl
  | cons a t ih =>
      rw [List.foldl_cons, ih]
      rw [arStep, List.length_set]

lemma arLoop_length (l : List ℝ) : (arLoop l).length = l.length := by
  rw [arLoop, foldl_arStep_length]

lemma mem_zipWith {α β γ : Type} {f : α → β → γ} {c : γ} :
    ∀ {as : List α} {bs : List β}, c ∈ List.zipWith f as bs →
      ∃ a ∈ as, ∃ b ∈ bs, c = f a b := by
  intro as
  induction as with
  | nil => intro bs h; simp at h
  | cons a as ih =>
      intro bs h
      cases bs with
      | nil => simp at h
      | cons b bs =>
          rw [List.zipWith_cons_cons, List.mem_cons] at h
          rcases h with h | h
          · exact ⟨a, List.mem_cons_self a as, b, List.mem_cons_self b bs, h⟩
          · obtain ⟨x, hx, y, hy, hc⟩ := ih h
            exact ⟨x, List.mem_cons_of_mem a hx, y, List.mem_cons_of_mem b hy, hc⟩

lemma clip_le (x lo hi : ℝ) : clip x lo hi ≤ hi := min_le_right _ _

lemma le_clip (x lo hi : ℝ) (h : lo ≤ hi) : lo ≤ clip x lo hi :=
  le_min (le_max_right _ _) h

lemma dates_getD (N i : ℕ) (h : i < N) : (dates N).getD i 0 = startOrdinal + i := by
  rw [dates, List.getD_eq_getElem _ _ (by simpa using h)]
  simp

/-- The invariants of §3 of the spec for the generated series: the date list
and the five variable lists all have length N, consecutive dates differ by
exactly one day, humidity lies in [10, 100], precipitation is nonnegative and
wind speed lies in [0, 50]. -/
def seriesInvariants (N : ℕ) (d : Draws) : Prop :=
  (dates N).length = N ∧
  (temperature N d).length = N ∧
  (humidity N d).length = N ∧
  (precipitation N d).length = N ∧
  (windSpeed N d).length = N ∧
  (pressure N d).length = N ∧
  (∀ i : ℕ, i + 1 < N → (dates N).getD (i + 1) 0 = (dates N).getD i 0 + 1) ∧
  (∀ x ∈ humidity N d, 10 ≤ x ∧ x ≤ 100) ∧
  (∀ x ∈ precipitation N d, 0 ≤ x) ∧
  (∀ x ∈ windSpeed N d, 0 ≤ x ∧ x ≤ 50)

/-- C3: for every day count N ≥ 1 and every draw of the random sources
(exponential rain amounts being nonnegative, as the exponential distribution
is supported on [0, ∞)), the generated series satisfies the §3 invariants. -/
theorem generated_series_invariants (N : ℕ) (d : Draws) (_hN : 1 ≤ N)
    (hexp : ∀ i, 0 ≤ d.expDraw i) : seriesInvariants N d := by
  have hvar_len : (dailyVariation N d).length = N := by
    rw [dailyVariation, arLoop_length, List.length_map, List.length_range]
  have htemp_len : (temperature N d).length = N := by
    rw [temperature, List.length_zipWith, hvar_len, seasonalTemp]
    simp
  have hhum_len : (humidity N d).length = N := by
    rw [humidity, List.length_zipWith, htemp_len]
    simp
  have hprob_len : (precipProbability N d).length = N := by
    rw [precipProbability, List.length_map, hhum_len]
  have hrain_len : (rainEvents N d).length = N := by
    rw [rainEvents, List.length_zipWith, hprob_len]
    simp
  have hprec_len : (precipitation N d).length = N := by
    rw [precipitation, List.length_zipWith, hrain_len]
    simp
  have hwind_len : (windSpeed N d).length = N := by
    rw [windSpeed, List.length_zipWith, hprec_len]
    simp
  have hpress_len : (pressure N d).length = N := by
    rw [pressure, List.length_zipWith, List.length_zipWith, hprec_len]
    simp
  refine ⟨by simp [dates], htemp_len, hhum_len, hprec_len, hwind_len, hpress_len,
    ?_, ?_, ?_, ?_⟩
  · intro i hi
    rw [dates_getD N (i + 1) (by omega), dates_getD N i (by omega)]
    omega
  · intro x hx
    rw [humidity] at hx
    obtain ⟨t, _, n, _, rfl⟩ := mem_zipWith hx
    exact ⟨le_clip _ _ _ (by norm_num), clip_le _ _ _⟩
  · intro x hx
    rw [precipitation] at hx
    obtain ⟨b, _, e, he, rfl⟩ := mem_zipWith hx
    obtain ⟨i, _, rfl⟩ := List.mem_map.mp he
    cases b with
    | true => simpa using hexp i
    | false => simp
  · intro x hx
    rw [windSpeed] at hx
    obtain ⟨p, _, n, _, rfl⟩ := mem_zipWith hx
    exact ⟨le_clip _ _ _ (by norm_num), clip_le _ _ _⟩

/-- A concrete draw assignment: all normal noises 0, uniform draws 1/2,
exponential draws 1. -/
noncomputable def drawsEx : Draws :=
  ⟨fun _ => 0, fun _ => 0, fun _ => 1 / 2, fun _ => 1, fun _ => 0, fun _ => 0⟩

/-- Witness for C3 at N = 2 with the concrete draws `drawsEx`. -/
theorem generated_series_invariants_witness :
    1 ≤ 2 ∧ (∀ i : ℕ, 0 ≤ drawsEx.expDraw i) ∧ seriesInvariants 2 drawsEx := by
  have hexp : ∀ i : ℕ, 0 ≤ drawsEx.expDraw i := fun _ => zero_le_one
  exact ⟨by norm_num, hexp, generated_series_invariants 2 drawsEx (by norm_num) hexp⟩

/-! ### Correlation analysis (correlation_analysis, src/app.py lines 106-140)

`np.corrcoef` over the 5 columns stacked in the fixed order
{temperature, humidity, precipitation, windSpeed, pressure}: the covariance
matrix (denominator N - 1) is normalized by the square roots of its diagonal
and the result is clipped to [-1, 1]. Exact rational columns keep the
covariance computations decidable; only the final sqrt/division is real. -/

/-- An arbitrary 5-variable series (the analyzer works on any series, not
just a generated one). -/
structure SeriesQ where
  temperature : List ℚ
  humidity : List ℚ
  precipitation : List ℚ
  windSpeed : List ℚ
  pressure : List ℚ

/-- The columns of `np.column_stack`, in the fixed variable order. -/
def col (s : SeriesQ) : Fin 5 → List ℚ
  | ⟨0, _⟩ => s.temperature
  | ⟨1, _⟩ => s.humidity
  | ⟨2, _⟩ => s.precipitation
  | ⟨3, _⟩ => s.windSpeed
  | ⟨4, _⟩ => s.pressure

/-- `np.mean`. -/
def meanQ (xs : List ℚ) : ℚ := xs.sum / xs.length

/-- An entry of `np.cov` (default `ddof = 1`): the centered cross product sum
divided by N - 1. -/
def covQ (xs ys : List ℚ) : ℚ :=
  (List.zipWith (fun x y => (x - meanQ xs) * (y - meanQ ys)) xs ys).sum /
    ((xs.length : ℚ) - 1)

/-- An entry of `np.corrcoef`: covariance divided by the square roots of the
two variances, clipped to [-1, 1]. -/
noncomputable def corrcoef (s : SeriesQ) (i j : Fin 5) : ℝ :=
  min (max (((covQ (col s i) (col s j) : ℚ) : ℝ) /
      (Real.sqrt ((covQ (col s i) (col s i) : ℚ) : ℝ) *
        Real.sqrt ((covQ (col s j) (col s j) : ℚ) : ℝ))) (-1)) 1

lemma zipWith_congr_fun {f g : ℚ → ℚ → ℚ} (h : ∀ a b, f a b = g a b) :
    ∀ (as bs : List ℚ), List.zipWith f as bs = List.zipWith g as bs := by
  intro as
  induction as with
  | nil => intro bs; rfl
  | cons a t ih =>
      intro bs
      cases bs with
      | nil => rfl
      | cons b bs => rw [List.zipWith_cons_cons, List.zipWith_cons_cons, h, ih]

lemma covQ_comm (xs ys : List ℚ) (h : xs.length = ys.length) :
    covQ xs ys = covQ ys xs := by
  rw [covQ, covQ, h]
  congr 1
  rw [List.zipWith_comm]
  exact congrArg List.sum (zipWith_congr_fun (fun a b => by ring) ys xs)

/-- C8: for equal-length columns none of which has zero variance, the 5x5
correlation matrix is symmetric and its diagonal entries are exactly 1. -/
theorem corr_matrix_symm_diag_one (s : SeriesQ)
    (hlen : ∀ i j : Fin 5, (col s i).length = (col s j).length)
    (hv : ∀ i : Fin 5, 0 < covQ (col s i) (col s i)) :
    (∀ i j : Fin 5, corrcoef s i j = corrcoef s j i) ∧
    (∀ i : Fin 5, corrcoef s i i = 1) := by
  constructor
  · intro i j
    have h1 : covQ (col s i) (col s j) = covQ (col s j) (col s i) :=
      covQ_comm _ _ (hlen i j)
    rw [corrcoef, corrcoef, h1,
      mul_comm (Real.sqrt ((covQ (col s i) (col s i) : ℚ) : ℝ))
        (Real.sqrt ((covQ (col s j) (col s j) : ℚ) : ℝ))]
  · intro i
    have hc : (0 : ℝ) < ((covQ (col s i) (col s i) : ℚ) : ℝ) := by
      exact_mod_cast hv i
    rw [corrcoef, Real.mul_self_sqrt (le_of_lt hc), div_self (ne_of_gt hc)]
    norm_num

/-- A concrete non-degenerate series: every column has two distinct values. -/
def sEx : SeriesQ := ⟨[0, 1], [0, 2], [0, 3], [0, 4], [0, 5]⟩

/-- Witness for C8 on `sEx`: the variance hypotheses are decidable facts, and
symmetry/diagonal follow from the theorem. -/
theorem corr_matrix_symm_diag_one_witness :
    (∀ i j : Fin 5, (col sEx i).length = (col sEx j).length) ∧
    (∀ i : Fin 5, 0 < covQ (col sEx i) (col sEx i)) ∧
    corrcoef sEx 0 1 = corrcoef sEx 1 0 ∧ corrcoef sEx 3 3 = 1 := by
  have hlen : ∀ i j : Fin 5, (col sEx i).length = (col sEx j).length := by
    intro i j
    fin_cases i <;> fin_cases j <;> rfl
  have hv : ∀ i : Fin 5, 0 < covQ (col sEx i) (col sEx i) := by
    intro i
    fin_cases i <;> norm_num [covQ, meanQ, col, sEx]
  exact ⟨hlen, hv, (corr_matrix_symm_diag_one sEx hlen hv).1 0 1,
    (corr_matrix_symm_diag_one sEx hlen hv).2 3⟩

/-! ### Zero-variance z-scores (extreme_weather_analysis, src/app.py lines 173-177)

`(x - np.mean(x)) / np.std(x)` with no variance check anywhere; the module
suppresses warnings (`warnings.filterwarnings('ignore')`), so a zero standard
deviation silently yields non-finite values. -/

/-- Population variance (`np.std` squared, `ddof = 0`). -/
def pvarQ (xs : List ℚ) : ℚ := (xs.map (fun x => (x - meanQ xs) ^ 2)).sum / xs.length

/-- The z-score array `(x - np.mean(x)) / np.std(x)` exactly as computed on
lines 173-175. `np.std` is the square root of `pvarQ`; when the variance is
zero the float division by `np.std(x) = 0.0` yields non-finite values (NaN),
modelled as `none`. No zero-variance check exists in the code. -/
noncomputable def zscoresFloat (xs : List ℚ) : Option (List ℝ) :=
  if pvarQ xs = 0 then none
  else some (xs.map (fun x =>
    ((x : ℝ) - ((meanQ xs : ℚ) : ℝ)) / Real.sqrt ((pvarQ xs : ℚ) : ℝ)))

/-- C4 evaluated at the failing input: on the constant series [5, 5, 5] the
variance is zero and the z-score computation divides by a zero standard
deviation, silently producing non-finite values (`none`) — the code never
detects the zero variance nor surfaces "undefined". -/
theorem zscore_unguarded_on_constant_input :
    pvarQ ([5, 5, 5] : List ℚ) = 0 ∧ zscoresFloat ([5, 5, 5] : List ℚ) = none := by
  have h : pvarQ ([5, 5, 5] : List ℚ) = 0 := by
    norm_num [pvarQ, meanQ]
  exact ⟨h, by rw [zscoresFloat, if_pos h]⟩

/-! ### Rainy-day statistics guards (src/app.py lines 149 and 229)

`np.percentile(self.precipitation[self.precipitation > 0], 90)` raises on an
empty selection and `np.mean` of an empty selection is NaN; both are modelled
as `none`. The code has no emptiness guard at either call site. -/

/-- `np.sort` (ascending). -/
def np_sort (xs : List ℚ) : List ℚ := List.insertionSort (· ≤ ·) xs

/-- `np.percentile(xs, q)` with the default linear interpolation;
an empty array raises (IndexError), modelled as `none`. -/
def np_percentile (xs : List ℚ) (q : ℚ) : Option ℚ :=
  if xs.isEmpty then none
  else
    let s := np_sort xs
    let rank : ℚ := q / 100 * ((xs.length : ℚ) - 1)
    let lo : ℕ := (Int.floor rank).toNat
    let frac : ℚ := rank - (lo : ℚ)
    some (s.getD lo 0 + frac * (s.getD (lo + 1) (s.getD lo 0) - s.getD lo 0))

/-- `np.mean(xs)`: NaN on an empty array, modelled as `none`. -/
def np_mean (xs : List ℚ) : Option ℚ :=
  if xs.isEmpty then none else some (xs.sum / xs.length)

/-- `self.precipitation[self.precipitation > 0]`. -/
def rainySelection (p : List ℚ) : List ℚ := p.filter (fun x => decide (0 < x))

/-- `heavy_rain = np.percentile(self.precipitation[self.precipitation > 0], 90)`
(line 149). -/
def heavyRainThreshold (p : List ℚ) : Option ℚ := np_percentile (rainySelection p) 90

/-- `avg_rainy_day = np.mean(self.precipitation[self.precipitation > 0])`
(line 229). -/
def avgRainyDay (p : List ℚ) : Option ℚ := np_mean (rainySelection p)

/-- C5 evaluated at the failing input: on a series with zero rainy days the
positive-precipitation selection is empty, the 90th-percentile computation
raises (`none`) and the rainy-day mean is NaN (`none`); no
"no precipitation observed" guard exists in the code. -/
theorem rainyday_stats_unguarded_when_dry :
    rainySelection ([0, 0, 0] : List ℚ) = [] ∧
    heavyRainThreshold ([0, 0, 0] : List ℚ) = none ∧
    avgRainyDay ([0, 0, 0] : List ℚ) = none := by
  decide

/-! ### Composite extremity score and the most extreme day
(extreme_weather_analysis, src/app.py lines 173-184)

`extreme_score = np.abs(z(temperature)) + z(wind_speed) + z(precipitation)`;
`most_extreme_day = np.argmax(extreme_score)`. `np.argmax` returns the first
index attaining the maximum: its scan replaces the running best only on a
strictly greater value. -/

/-- `np.mean` over the reals. -/
noncomputable def npMeanR (xs : List ℝ) : ℝ := xs.sum / xs.length

/-- `np.std`: the population standard deviation. -/
noncomputable def npStdR (xs : List ℝ) : ℝ :=
  Real.sqrt ((xs.map (fun x => (x - npMeanR xs) ^ 2)).sum / xs.length)

/-- `(x - np.mean(x)) / np.std(x)` elementwise. -/
noncomputable def zscoreList (xs : List ℝ) : List ℝ :=
  xs.map (fun x => (x - npMeanR xs) / npStdR xs)

/-- `extreme_score = temp_normalized + wind_normalized + precip_normalized`
with the absolute value taken on the temperature z-scores only. -/
noncomputable def extremeScores (t w p : List ℝ) : List ℝ :=
  List.zipWith (· + ·)
    (List.zipWith (· + ·) ((zscoreList t).map (fun z => |z|)) (zscoreList w))
    (zscoreList p)

/-- The scan of `np.argmax`: `bi`/`bv` are the best index and value so far,
`i` the index of the head of the remaining list; the best is replaced only on
a strictly greater value. -/
noncomputable def argmaxAux : ℕ → ℝ → ℕ → List ℝ → ℕ
  | bi, _, _, [] => bi
  | bi, bv, i, x :: t =>
      if bv < x then argmaxAux i x (i + 1) t else argmaxAux bi bv (i + 1) t

/-- `np.argmax` (0 on an empty array). -/
noncomputable def argmaxList : List ℝ → ℕ
  | [] => 0
  | x :: t => argmaxAux 0 x 1 t

/-- `most_extreme_day = np.argmax(extreme_score)` (line 178). -/
noncomputable def mostExtremeDay (t w p : List ℝ) : ℕ :=
  argmaxList (extremeScores t w p)

lemma argmaxAux_of_le (t : List ℝ) : ∀ (bi i : ℕ) (bv : ℝ),
    (∀ k, k < t.length → t.getD k 0 ≤ bv) → argmaxAux bi bv i t = bi := by
  induction t with
  | nil => intro bi i bv _; rfl
  | cons x s ih =>
      intro bi i bv h
      have hx : x ≤ bv := by simpa using h 0 (by simp)
      rw [argmaxAux, if_neg (not_lt.mpr hx)]
      apply ih
      intro k hk
      have hb : k + 1 < (x :: s).length := by
        simp only [List.length_cons]
        omega
      simpa [List.getD_cons_succ] using h (k + 1) hb

lemma argmaxAux_le (t : List ℝ) : ∀ (bi i jt : ℕ) (bv : ℝ),
    jt < t.length → bi ≤ i + jt → bv ≤ t.getD jt 0 →
    (∀ k, k < t.length → t.getD k 0 ≤ t.getD jt 0) →
    argmaxAux bi bv i t ≤ i + jt := by
  induction t with
  | nil => intro bi i jt bv h; simp at h
  | cons x s ih =>
      intro bi i jt bv hjt hbi hbv hmax
      rw [argmaxAux]
      by_cases hx : bv < x
      · rw [if_pos hx]
        cases jt with
        | zero =>
            have hall : ∀ k, k < s.length → s.getD k 0 ≤ x := by
              intro k hk
              have hb : k + 1 < (x :: s).length := by
                simp only [List.length_cons]
                omega
              simpa [List.getD_cons_succ] using hmax (k + 1) hb
            rw [argmaxAux_of_le s i (i + 1) x hall]
            omega
        | succ j =>
            have h1 : j < s.length := by simpa using hjt
            have h3 : x ≤ s.getD j 0 := by
              simpa [List.getD_cons_succ] using hmax 0 (by simp)
            have h4 : ∀ k, k < s.length → s.getD k 0 ≤ s.getD j 0 := by
              intro k hk
              have hb : k + 1 < (x :: s).length := by
                simp only [List.length_cons]
                omega
              simpa [List.getD_cons_succ] using hmax (k + 1) hb
            have := ih i (i + 1) j x h1 (by omega) h3 h4
            omega
      · rw [if_neg hx]
        have hxbv : x ≤ bv := not_lt.mp hx
        cases jt with
        | zero =>
            have hall : ∀ k, k < s.length → s.getD k 0 ≤ bv := by
              intro k hk
              have hb : k + 1 < (x :: s).length := by
                simp only [List.length_cons]
                omega
              have hkx : s.getD k 0 ≤ x := by
                simpa [List.getD_cons_succ] using hmax (k + 1) hb
              exact le_trans hkx hxbv
            rw [argmaxAux_of_le s bi (i + 1) bv hall]
            exact hbi
        | succ j =>
            have h1 : j < s.length := by simpa using hjt
            have h3 : bv ≤ s.getD j 0 := by
              simpa [List.getD_cons_succ] using hbv
            have h4 : ∀ k, k < s.length → s.getD k 0 ≤ s.getD j 0 := by
              intro k hk
              have hb : k + 1 < (x :: s).length := by
                simp only [List.length_cons]
                omega
              simpa [List.getD_cons_succ] using hmax (k + 1) hb
            have := ih bi (i + 1) j bv h1 (by omega) h3 h4
            omega

lemma argmaxList_le (l : List ℝ) (j : ℕ) (hj : j < l.length)
    (hmax : ∀ k, k < l.length → l.getD k 0 ≤ l.getD j 0) :
    argmaxList l ≤ j := by
  cases l with
  | nil => simp at hj
  | cons x t =>
      rw [argmaxList]
      cases j with
      | zero =>
          have hall : ∀ k, k < t.length → t.getD k 0 ≤ x := by
            intro k hk
            have hb : k + 1 < (x :: t).length := by
              simp only [List.length_cons]
              omega
            simpa [List.getD_cons_succ] using hmax (k + 1) hb
          rw [argmaxAux_of_le t 0 1 x hall]
      | succ j =>
          have h1 : j < t.length := by simpa using hj
          have h3 : x ≤ t.getD j 0 := by
            simpa [List.getD_cons_succ] using hmax 0 (by simp)
          have h4 : ∀ k, k < t.length → t.getD k 0 ≤ t.getD j 0 := by
            intro k hk
            have hb : k + 1 < (x :: t).length := by
              simp only [List.length_cons]
              omega
            simpa [List.getD_cons_succ] using hmax (k + 1) hb
          have := argmaxAux_le t 0 1 j x h1 (by omega) h3 h4
          omega

lemma argmaxAux_spec (t : List ℝ) : ∀ (bi i : ℕ) (bv : ℝ),
    (argmaxAux bi bv i t = bi ∧ ∀ k, k < t.length → t.getD k 0 ≤ bv) ∨
    (∃ m, m < t.length ∧ argmaxAux bi bv i t = i + m ∧ bv < t.getD m 0 ∧
      ∀ k, k < t.length → t.getD k 0 ≤ t.getD m 0) := by
  induction t with
  | nil =>
      intro bi i bv
      left
      exact ⟨rfl, fun k hk => by simp at hk⟩
  | cons x s ih =>
      intro bi i bv
      rw [argmaxAux]
      by_cases hx : bv < x
      · rw [if_pos hx]
        rcases ih i (i + 1) x with ⟨hres, hall⟩ | ⟨m, hm, hres, hlt, hall⟩
        · right
          refine ⟨0, by simp, by rw [hres]; omega, by simpa using hx, ?_⟩
          intro k hk
          cases k with
          | zero => simp
          | succ k =>
              have hk2 : k < s.length := by simpa using hk
              simpa [List.getD_cons_zero, List.getD_cons_succ] using hall k hk2
        · right
          refine ⟨m + 1, by simpa using Nat.succ_lt_succ hm, by rw [hres]; omega, ?_, ?_⟩
          · have hbv : bv < s.getD m 0 := lt_trans hx hlt
            simpa [List.getD_cons_succ] using hbv
          · intro k hk
            cases k with
            | zero =>
                have hxm : x ≤ s.getD m 0 := le_of_lt hlt
                simpa [List.getD_cons_zero, List.getD_cons_succ] using hxm
            | succ k =>
                have hk2 : k < s.length := by simpa using hk
                simpa [List.getD_cons_succ] using hall k hk2
      · rw [if_neg hx]
        have hxle : x ≤ bv := not_lt.mp hx
        rcases ih bi (i + 1) bv with ⟨hres, hall⟩ | ⟨m, hm, hres, hlt, hall⟩
        · left
          refine ⟨hres, ?_⟩
          intro k hk
          cases k with
          | zero => simpa using hxle
          | succ k =>
              have hk2 : k < s.length := by simpa using hk
              simpa [List.getD_cons_succ] using hall k hk2
        · right
          refine ⟨m + 1, by simpa using Nat.succ_lt_succ hm, by rw [hres]; omega, ?_, ?_⟩
          · simpa [List.getD_cons_succ] using hlt
          · intro k hk
            cases k with
            | zero =>
                have hxm : x ≤ s.getD m 0 := le_trans hxle (le_of_lt hlt)
                simpa [List.getD_cons_zero, List.getD_cons_succ] using hxm
            | succ k =>
                have hk2 : k < s.length := by simpa using hk
                simpa [List.getD_cons_succ] using hall k hk2

lemma argmaxList_attains (l : List ℝ) (hne : 0 < l.length) :
    argmaxList l < l.length ∧
    ∀ k, k < l.length → l.getD k 0 ≤ l.getD (argmaxList l) 0 := by
  cases l with
  | nil => simp at hne
  | cons x s =>
      rw [argmaxList]
      rcases argmaxAux_spec s 0 1 x with ⟨hres, hall⟩ | ⟨m, hm, hres, hlt, hall⟩
      · rw [hres]
        refine ⟨by simp, ?_⟩
        intro k hk
        cases k with
        | zero => simp
        | succ k =>
            have hk2 : k < s.length := by simpa using hk
            simpa [List.getD_cons_zero, List.getD_cons_succ] using hall k hk2
      · rw [hres]
        have h1m : 1 + m = m + 1 := by omega
        refine ⟨by simp only [List.length_cons]; omega, ?_⟩
        intro k hk
        rw [h1m]
        cases k with
        | zero =>
            have hxm : x ≤ s.getD m 0 := le_of_lt hlt
            simpa [List.getD_cons_zero, List.getD_cons_succ] using hxm
        | succ k =>
            have hk2 : k < s.length := by simpa using hk
            simpa [List.getD_cons_succ] using hall k hk2

/-- C10: the day reported as most extreme is the least tied maximizer of the
composite extremity score: it is a valid day index, its score is maximal, and
whenever day j also attains the maximum the reported day is at most j — among
tied maximizers np.argmax picks the smallest day index (earliest date). -/
theorem most_extreme_day_first_maximizer (t w p : List ℝ) (j : ℕ)
    (hj : j < (extremeScores t w p).length)
    (hmax : ∀ k, k < (extremeScores t w p).length →
      (extremeScores t w p).getD k 0 ≤ (extremeScores t w p).getD j 0) :
    mostExtremeDay t w p < (extremeScores t w p).length ∧
    (∀ k, k < (extremeScores t w p).length →
      (extremeScores t w p).getD k 0 ≤
        (extremeScores t w p).getD (mostExtremeDay t w p) 0) ∧
    mostExtremeDay t w p ≤ j := by
  have hne : 0 < (extremeScores t w p).length := lt_of_le_of_lt (Nat.zero_le j) hj
  have hatt := argmaxList_attains (extremeScores t w p) hne
  exact ⟨hatt.1, hatt.2, argmaxList_le _ j hj hmax⟩

lemma extremeScores_tie_example :
    extremeScores [(0 : ℝ), 2] [(0 : ℝ), 2] [(2 : ℝ), 0] = [1, 1] := by
  have hm1 : npMeanR [(0 : ℝ), 2] = 1 := by
    rw [npMeanR]
    norm_num
  have hm2 : npMeanR [(2 : ℝ), 0] = 1 := by
    rw [npMeanR]
    norm_num
  have hstd1 : npStdR [(0 : ℝ), 2] = 1 := by
    rw [npStdR, hm1]
    norm_num
  have hstd2 : npStdR [(2 : ℝ), 0] = 1 := by
    rw [npStdR, hm2]
    norm_num
  simp only [extremeScores, zscoreList, hm1, hm2, hstd1, hstd2]
  norm_num

/-- Witness for C10: on a two-day series whose composite scores tie at [1, 1]
(a non-degenerate series with unit variances), day 1 is a maximizer, the
reported day is a valid maximal-score index and is at most 1. -/
theorem most_extreme_day_first_maximizer_witness :
    1 < (extremeScores [(0 : ℝ), 2] [(0 : ℝ), 2] [(2 : ℝ), 0]).length ∧
    mostExtremeDay [(0 : ℝ), 2] [(0 : ℝ), 2] [(2 : ℝ), 0] <
      (extremeScores [(0 : ℝ), 2] [(0 : ℝ), 2] [(2 : ℝ), 0]).length ∧
    (∀ k, k < (extremeScores [(0 : ℝ), 2] [(0 : ℝ), 2] [(2 : ℝ), 0]).length →
      (extremeScores [(0 : ℝ), 2] [(0 : ℝ), 2] [(2 : ℝ), 0]).getD k 0 ≤
        (extremeScores [(0 : ℝ), 2] [(0 : ℝ), 2] [(2 : ℝ), 0]).getD
          (mostExtremeDay [(0 : ℝ), 2] [(0 : ℝ), 2] [(2 : ℝ), 0]) 0) ∧
    mostExtremeDay [(0 : ℝ), 2] [(0 : ℝ), 2] [(2 : ℝ), 0] ≤ 1 := by
  have hs := extremeScores_tie_example
  have hj : 1 < (extremeScores [(0 : ℝ), 2] [(0 : ℝ), 2] [(2 : ℝ), 0]).length := by
    rw [hs]
    norm_num
  have hmax : ∀ k, k < (extremeScores [(0 : ℝ), 2] [(0 : ℝ), 2] [(2 : ℝ), 0]).length →
      (extremeScores [(0 : ℝ), 2] [(0 : ℝ), 2] [(2 : ℝ), 0]).getD k 0 ≤
        (extremeScores [(0 : ℝ), 2] [(0 : ℝ), 2] [(2 : ℝ), 0]).getD 1 0 := by
    intro k hk
    rw [hs] at hk ⊢
    simp only [List.length_cons, List.length_nil] at hk
    interval_cases k <;> simp
  have h := most_extreme_day_first_maximizer [(0 : ℝ), 2] [(0 : ℝ), 2] [(2 : ℝ), 0] 1 hj hmax
  exact ⟨hj, h.1, h.2.1, h.2.2⟩

/-- Witness for C6's recurrence clause on the concrete noise [1, 2]:
the loop result equals the scan and satisfies the AR(1) recurrence at i = 1. -/
theorem ar_loop_eq_scan_witness :
    arLoop [(1 : ℝ), 2] = arScan [(1 : ℝ), 2] ∧
    0 + 1 < [(1 : ℝ), 2].length ∧
    (arLoop [(1 : ℝ), 2]).getD 1 0 =
      [(1 : ℝ), 2].getD 1 0 + 3 / 10 * (arLoop [(1 : ℝ), 2]).getD 0 0 :=
  ⟨(ar_loop_eq_scan [(1 : ℝ), 2]).1, by norm_num,
    (ar_loop_eq_scan [(1 : ℝ), 2]).2.2 0 (by norm_num)⟩
